import Mathlib

/-!
Shallow embedding of the versioned snippet synchronization engine of
`src/global-snippets.js` (the `StorageManager` class together with
`Utils.debounce` / `SnippetManager.setupAutoSave`).

Modelling conventions:
* A JS object used as a map is an association list that keeps JS key order:
  updating an existing key rewrites it in place, a new key is appended.
* The remote store is an oracle: `remoteData : Option SnippetCollection` is
  what `fetchFromAPI` resolves to (`none` = failure or unavailable), and
  `pushOk : Bool` is whether the `PUT` of `saveToAPI` succeeds.
* Every operation returns its result, the successor state, and the list of
  I/O effects it performed, in order.
* `saveSnippet` has no error component in its result: the code attaches a
  `.catch` to the remote push and never throws on the local path.
-/

namespace GlobalSnippets

/-- One recorded revision, as built in `StorageManager.saveSnippet`
(`{ version, html, timestamp, author }`). -/
structure Version where
  version : Nat
  html : String
  timestamp : String
  author : String
deriving DecidableEq, Repr

/-- A snippet record (`{ id, versions, currentVersion }`). -/
structure Snippet where
  id : String
  versions : List Version
  currentVersion : Nat
deriving DecidableEq, Repr

/-- The snippet collection: a JS object keyed by snippet id. -/
abbrev SnippetCollection := List (String × Snippet)

/-- Key lookup (`allSnippets[snippetId]`). -/
def getSnippet (c : SnippetCollection) (i : String) : Option Snippet :=
  List.lookup i c

/-- Key assignment (`allSnippets[snippetId] = snip`): an existing key is
rewritten in place, a fresh key is appended (JS object key order). -/
def setSnippet : SnippetCollection → String → Snippet → SnippetCollection
  | [], i, snip => [(i, snip)]
  | (k, v) :: t, i, snip =>
      if k = i then (i, snip) :: t else (k, v) :: setSnippet t i snip

/-- Key removal (`delete allSnippets[snippetId]`). -/
def removeSnippet (c : SnippetCollection) (i : String) : SnippetCollection :=
  c.filter (fun p => p.1 != i)

/-- I/O effects an operation performs, in order. -/
inductive Effect
  | remoteFetchAttempt
  | localLoad
  | localSave (c : SnippetCollection)
  | remotePush (c : SnippetCollection)
  | pushSkipped
deriving DecidableEq, Repr

/-- `StorageManager` instance state: `this.cache` (`null` initially),
the content of the `localStorage` slot, and `this.syncInProgress`. -/
structure StorageState where
  cache : Option SnippetCollection
  localStore : Option SnippetCollection
  syncInProgress : Bool
deriving DecidableEq, Repr

/-- `loadFromLocalStorage`: absent or malformed data yields `{}`. -/
def loadFromLocalStorage (s : StorageState) : SnippetCollection :=
  s.localStore.getD []

/-- JS `l.slice(-m)`: the last `m` elements, the whole list when `m = 0`. -/
def jsSliceLast (m : Nat) (l : List α) : List α :=
  if m = 0 then l else l.drop (l.length - m)

/-- `StorageManager.getAllSnippets`: cache hit returns the cache with no
I/O; otherwise remote-preferred population with local fallback. -/
def getAllSnippets (remoteData : Option SnippetCollection) (s : StorageState) :
    SnippetCollection × StorageState × List Effect :=
  match s.cache with
  | some c => (c, s, [])
  | none =>
    match remoteData with
    | some apiData =>
        (apiData, { s with cache := some apiData, localStore := some apiData },
         [Effect.remoteFetchAttempt, Effect.localSave apiData])
    | none =>
        let localData := loadFromLocalStorage s
        (localData, { s with cache := some localData },
         [Effect.remoteFetchAttempt, Effect.localLoad])

/-- `StorageManager.saveToAPI`: skipped (resolving without error) when a
push is already in flight; otherwise the push happens and its outcome is
the result. The `finally` restores `syncInProgress`. -/
def saveToAPI (pushOk : Bool) (s : StorageState) (data : SnippetCollection) :
    Except String Unit × StorageState × List Effect :=
  if s.syncInProgress then
    (Except.ok (), s, [Effect.pushSkipped])
  else if pushOk then
    (Except.ok (), s, [Effect.remotePush data])
  else
    (Except.error "API save failed", s, [Effect.remotePush data])

/-- The snippet created on first save for an id. -/
def freshSnippet (i : String) : Snippet :=
  { id := i, versions := [], currentVersion := 0 }

/-- The version-ledger core of `saveSnippet` (lines 110-123): build the new
version numbered `versions.length`, push it, point `currentVersion` at the
new version number, then trim to the last `maxVersionHistory` entries. -/
def appendVersion (maxHistory : Nat) (snip : Snippet)
    (html author timestamp : String) : Version × Snippet :=
  let newVersion : Version :=
    { version := snip.versions.length, html := html,
      timestamp := timestamp, author := author }
  let pushed := snip.versions ++ [newVersion]
  let trimmed :=
    if pushed.length > maxHistory then jsSliceLast maxHistory pushed else pushed
  (newVersion,
   { snip with versions := trimmed, currentVersion := newVersion.version })

/-- `StorageManager.saveSnippet`: read-through fetch, implicit creation,
`appendVersion`, synchronous cache + local-storage commit, then a
fire-and-forget remote push whose outcome is swallowed by `.catch`. -/
def saveSnippet (maxHistory : Nat) (remoteData : Option SnippetCollection)
    (pushOk : Bool) (timestamp : String) (s : StorageState)
    (i html author : String) : Version × StorageState × List Effect :=
  let fetched := getAllSnippets remoteData s
  let snip := (getSnippet fetched.1 i).getD (freshSnippet i)
  let appended := appendVersion maxHistory snip html author timestamp
  let updated := setSnippet fetched.1 i appended.2
  let s2 := { fetched.2.1 with cache := some updated, localStore := some updated }
  let pushed := saveToAPI pushOk s2 updated
  (appended.1, pushed.2.1,
   fetched.2.2 ++ [Effect.localSave updated] ++ pushed.2.2)

/-- `StorageManager.deleteSnippet`: remove the key, commit to cache and
local storage, then `await this.saveToAPI(...)` so a push failure
propagates as the call result. -/
def deleteSnippet (remoteData : Option SnippetCollection) (pushOk : Bool)
    (s : StorageState) (i : String) :
    Except String Unit × StorageState × List Effect :=
  let fetched := getAllSnippets remoteData s
  let updated := removeSnippet fetched.1 i
  let s2 := { fetched.2.1 with cache := some updated, localStore := some updated }
  let pushed := saveToAPI pushOk s2 updated
  (pushed.1, pushed.2.1,
   fetched.2.2 ++ [Effect.localSave updated] ++ pushed.2.2)

/-- `StorageManager.restoreVersion`: throws when the snippet or the indexed
version is missing; otherwise only reassigns `currentVersion`, commits,
awaits the remote push (so its failure propagates), and returns the
version at the requested index. -/
def restoreVersion (remoteData : Option SnippetCollection) (pushOk : Bool)
    (s : StorageState) (i : String) (versionNumber : Nat) :
    Except String Version × StorageState × List Effect :=
  let fetched := getAllSnippets remoteData s
  match getSnippet fetched.1 i with
  | none => (Except.error "Version not found", fetched.2.1, fetched.2.2)
  | some snip =>
    match snip.versions[versionNumber]? with
    | none => (Except.error "Version not found", fetched.2.1, fetched.2.2)
    | some v =>
      let snip2 := { snip with currentVersion := versionNumber }
      let updated := setSnippet fetched.1 i snip2
      let s2 :=
        { fetched.2.1 with cache := some updated, localStore := some updated }
      let pushed := saveToAPI pushOk s2 updated
      match pushed.1 with
      | Except.error e =>
          (Except.error e, pushed.2.1,
           fetched.2.2 ++ [Effect.localSave updated] ++ pushed.2.2)
      | Except.ok _ =>
          (Except.ok v, pushed.2.1,
           fetched.2.2 ++ [Effect.localSave updated] ++ pushed.2.2)

/-- The import handler: `{ ...currentSnippets, ...snippets }`, commit to
cache and local storage, then `await saveToAPI(mergedSnippets)`. -/
def importMerge (remoteData : Option SnippetCollection) (pushOk : Bool)
    (s : StorageState) (incoming : SnippetCollection) :
    Except String Unit × StorageState × List Effect :=
  let fetched := getAllSnippets remoteData s
  let merged := incoming.foldl (fun acc p => setSnippet acc p.1 p.2) fetched.1
  let s2 := { fetched.2.1 with cache := some merged, localStore := some merged }
  let pushed := saveToAPI pushOk s2 merged
  (pushed.1, pushed.2.1,
   fetched.2.2 ++ [Effect.localSave merged] ++ pushed.2.2)

/-- A sequence of consecutive `saveSnippet` calls for one id (timestamps
are irrelevant to the claims and kept constant). -/
def saveSeq (maxHistory : Nat) (remoteData : Option SnippetCollection)
    (pushOk : Bool) (i author : String) :
    StorageState → List String → StorageState
  | s, [] => s
  | s, c :: rest =>
      saveSeq maxHistory remoteData pushOk i author
        (saveSnippet maxHistory remoteData pushOk "t" s i c author).2.1 rest

/-- The cached snippet stored under an id, if any. -/
def currentSnippetOf (s : StorageState) (i : String) : Option Snippet :=
  s.cache.bind (fun c => getSnippet c i)

/-!
Discrete model of `Utils.debounce` as wired up by
`SnippetManager.setupAutoSave`: a SINGLE closure with a single timer slot
is shared by every watched region; each mutation event (region id, region
content, time) clears whatever timer is pending — whichever region set
it — and arms a new one for `wait` ms with the latest arguments.  A save
fires when a pending deadline is reached.
-/

/-- The shared debounce closure state: at most one pending timer
(region id, content, deadline), plus the saves fired so far. -/
structure DebounceState where
  pending : Option (String × String × Nat)
  fired : List (String × String)
deriving DecidableEq, Repr

/-- One mutation event hitting the shared `debouncedSave`: if the pending
timer's deadline already passed, it fires first; the pending timer is then
cleared and re-armed with this event's region and content. -/
def debounceStep (wait : Nat) (st : DebounceState)
    (e : String × String × Nat) : DebounceState :=
  let fired1 :=
    match st.pending with
    | some p => if p.2.2 ≤ e.2.2 then st.fired ++ [(p.1, p.2.1)] else st.fired
    | none => st.fired
  { pending := some (e.1, e.2.1, e.2.2 + wait), fired := fired1 }

/-- Run a time-ordered mutation event sequence through the shared debounce
closure, then let time pass so any still-pending timer fires. -/
def debounceRun (wait : Nat) (events : List (String × String × Nat)) :
    DebounceState :=
  let fin := events.foldl (debounceStep wait) { pending := none, fired := [] }
  match fin.pending with
  | some p => { pending := none, fired := fin.fired ++ [(p.1, p.2.1)] }
  | none => fin

/-- Every event of the list arrives strictly before the deadline armed by
the previous event (first deadline measured from time `t`): one burst. -/
def chainLt (wait : Nat) : Nat → List (String × String × Nat) → Prop
  | _, [] => True
  | t, e :: rest => e.2.2 < t + wait ∧ chainLt wait e.2.2 rest

/-- Last element of a list, with a default for the empty list. -/
def lastD (d : α) (l : List α) : α :=
  (l.getLast?).getD d

/-- The per-snippet numbering invariant maintained by `appendVersion`:
every retained version is numbered at most the ledger length, and the
ledger respects the retention cap. -/
def VersionNumInv (maxHistory : Nat) (snip : Snippet) : Prop :=
  (∀ v ∈ snip.versions, v.version ≤ snip.versions.length) ∧
  snip.versions.length ≤ maxHistory

/-- The ledger of one snippet after a sequence of saves, starting from the
implicitly created fresh snippet (timestamps constant, as irrelevant). -/
def snippetAfterSaves (m : Nat) (i author : String)
    (contents : List String) : Snippet :=
  contents.foldl (fun sn c => (appendVersion m sn c author "t").2)
    (freshSnippet i)

/-! ## Concrete scenario states -/

/-- A fresh engine whose cache is the populated empty collection. -/
def initState : StorageState :=
  { cache := some [], localStore := some [], syncInProgress := false }

/-- Three consecutive saves of contents A, B, C for id `s` with
`maxVersionHistory = 2` (the concrete retention scenario of the spec). -/
def savedABC : StorageState :=
  saveSeq 2 none true "s" "u" initState ["A", "B", "C"]

/-- A snippet holding two versions, content A then B, B current. -/
def twoVersionSnippet : Snippet :=
  { id := "s",
    versions := [⟨0, "A", "t", "u"⟩, ⟨1, "B", "t", "u"⟩],
    currentVersion := 1 }

/-- An engine state whose collection holds only `twoVersionSnippet`. -/
def twoVersionState : StorageState :=
  { cache := some [("s", twoVersionSnippet)],
    localStore := some [("s", twoVersionSnippet)],
    syncInProgress := false }

/-! ## Helper lemmas -/

theorem getSnippet_setSnippet_self (c : SnippetCollection) (i : String)
    (snip : Snippet) : getSnippet (setSnippet c i snip) i = some snip := by
  induction c with
  | nil => simp [getSnippet, setSnippet, List.lookup]
  | cons p t ih =>
      obtain ⟨k, v⟩ := p
      by_cases hk : k = i
      · simp [setSnippet, hk, getSnippet, List.lookup]
      · simp only [setSnippet, if_neg hk]
        simpa [getSnippet, List.lookup, show (i == k) = false by
          simpa using Ne.symm hk] using ih

theorem removeSnippet_of_absent (c : SnippetCollection) (i : String)
    (h : getSnippet c i = none) : removeSnippet c i = c := by
  induction c with
  | nil => rfl
  | cons p t ih =>
      obtain ⟨k, v⟩ := p
      simp only [getSnippet, List.lookup] at h
      by_cases hk : i = k
      · simp [hk] at h
      · have hk2 : (i == k) = false := by
          simpa using hk
        simp only [hk2, Bool.false_eq_true, if_false] at h
        have hkv : ((k, v).1 != i) = true := by
          simp only [bne_iff_ne, ne_eq]
          exact fun he => hk he.symm
        simp only [removeSnippet, List.filter_cons, hkv, if_true]
        exact congrArg (List.cons (k, v)) (ih h)

theorem lastD_cons (d e : α) (l : List α) : lastD d (e :: l) = lastD e l := by
  cases l with
  | nil => simp [lastD]
  | cons b t =>
      simp only [lastD, List.getLast?_cons_cons]
      cases hx : (b :: t).getLast? with
      | none => simp [List.getLast?_eq_none_iff] at hx
      | some x => simp

theorem saveToAPI_eq (pushOk : Bool) (s : StorageState)
    (d : SnippetCollection) :
    saveToAPI pushOk s d =
      ((if s.syncInProgress then Except.ok ()
        else if pushOk then Except.ok ()
        else Except.error "API save failed"),
       s,
       if s.syncInProgress then [Effect.pushSkipped]
       else [Effect.remotePush d]) := by
  by_cases h1 : s.syncInProgress <;> by_cases h2 : pushOk <;>
    simp [saveToAPI, h1, h2]

theorem getAllSnippets_syncInProgress (remoteData : Option SnippetCollection)
    (s : StorageState) :
    (getAllSnippets remoteData s).2.1.syncInProgress = s.syncInProgress := by
  cases hc : s.cache with
  | some c => simp [getAllSnippets, hc]
  | none => cases remoteData with
    | some apiData => simp [getAllSnippets, hc]
    | none => simp [getAllSnippets, hc]

theorem getLast?_drop_of_lt (l : List α) (n : Nat) (h : n < l.length) :
    (l.drop n).getLast? = l.getLast? := by
  conv_rhs => rw [← List.take_append_drop n l]
  rw [List.getLast?_append_of_ne_nil]
  intro hnil
  have h0 : (l.drop n).length = 0 := by rw [hnil]; rfl
  rw [List.length_drop] at h0
  omega

theorem appendVersion_fst (m : Nat) (snip : Snippet)
    (html author timestamp : String) :
    (appendVersion m snip html author timestamp).1 =
      { version := snip.versions.length, html := html,
        timestamp := timestamp, author := author } := rfl

theorem appendVersion_versions (m : Nat) (snip : Snippet)
    (html author timestamp : String) :
    (appendVersion m snip html author timestamp).2.versions =
      (if snip.versions.length + 1 > m
       then jsSliceLast m
         (snip.versions ++ [(appendVersion m snip html author timestamp).1])
       else
         snip.versions ++ [(appendVersion m snip html author timestamp).1]) := by
  simp [appendVersion]

theorem jsSliceLast_eq_drop (m : Nat) (hm : 1 ≤ m) (l : List α) :
    jsSliceLast m l = l.drop (l.length - m) := by
  have : ¬ m = 0 := by omega
  simp [jsSliceLast, this]

theorem snippetAfterSaves_spec (m : Nat) (hm : 1 ≤ m) (i author : String)
    (cs : List String) :
    (snippetAfterSaves m i author cs).versions.map (fun v => v.html) =
      cs.drop (cs.length - m) ∧
    (snippetAfterSaves m i author cs).versions.length = min cs.length m := by
  induction cs using List.reverseRecOn with
  | nil => simp [snippetAfterSaves, freshSnippet]
  | append_singleton l a ih =>
      obtain ⟨ihm, ihl⟩ := ih
      have hfold : snippetAfterSaves m i author (l ++ [a]) =
          (appendVersion m (snippetAfterSaves m i author l) a author "t").2 := by
        simp [snippetAfterSaves, List.foldl_append]
      rw [hfold, appendVersion_versions]
      set S := snippetAfterSaves m i author l with hS
      have hmap2 : (S.versions ++ [(appendVersion m S a author "t").1]).map
          (fun v => v.html) = l.drop (l.length - m) ++ [a] := by
        rw [List.map_append, ihm, appendVersion_fst]
        simp
      by_cases ht : S.versions.length + 1 > m
      · rw [if_pos ht, jsSliceLast_eq_drop m hm]
        have hml : m ≤ l.length := by
          rcases Nat.le_total l.length m with h | h
          · rw [Nat.min_eq_left h] at ihl
            omega
          · exact h
        have hnm : S.versions.length = m := by
          rw [ihl, Nat.min_eq_right hml]
        have hplen : (S.versions ++ [(appendVersion m S a author "t").1]).length
            = m + 1 := by
          simp [hnm]
        constructor
        · rw [List.map_drop, hmap2, hplen]
          have h1m : m + 1 - m = 1 := by omega
          rw [h1m]
          have hXlen : (l.drop (l.length - m)).length = m := by
            rw [List.length_drop]
            omega
          rw [List.drop_append_of_le_length (by omega : 1 ≤
            (l.drop (l.length - m)).length), List.drop_drop]
          have hidx : l.length - m + 1 = l.length + 1 - m := by omega
          rw [hidx]
          have hidx2 : (l ++ [a]).length - m = l.length + 1 - m := by
            simp
          rw [hidx2,
            List.drop_append_of_le_length (by omega : l.length + 1 - m ≤ l.length)]
        · rw [List.length_drop, hplen]
          simp
          omega
      · rw [if_neg ht]
        have hlm : l.length < m := by
          rcases Nat.le_total m l.length with h | h
          · rw [Nat.min_eq_right h] at ihl
            omega
          · rw [Nat.min_eq_left h] at ihl
            omega
        have hnl : S.versions.length = l.length := by
          rw [ihl, Nat.min_eq_left (by omega)]
        constructor
        · rw [hmap2]
          have h0 : l.length - m = 0 := by omega
          have h0b : (l ++ [a]).length - m = 0 := by
            simp
            omega
          rw [h0, h0b]
          simp
        · simp [hnl]
          omega

theorem saveSeq_cache_lookup (m : Nat) (remoteData : Option SnippetCollection)
    (pushOk : Bool) (i author : String) :
    ∀ (cs : List String) (s : StorageState) (c : SnippetCollection)
      (snip : Snippet), s.cache = some c → getSnippet c i = some snip →
      currentSnippetOf (saveSeq m remoteData pushOk i author s cs) i =
        some (cs.foldl (fun sn cc => (appendVersion m sn cc author "t").2)
          snip) := by
  intro cs
  induction cs with
  | nil =>
      intro s c snip hc hg
      simp [saveSeq, currentSnippetOf, hc, hg]
  | cons cc rest ih =>
      intro s c snip hc hg
      have hstep :
          (saveSnippet m remoteData pushOk "t" s i cc author).2.1.cache =
            some (setSnippet c i (appendVersion m snip cc author "t").2) := by
        simp [saveSnippet, getAllSnippets, hc, hg, saveToAPI_eq]
      rw [saveSeq]
      rw [ih (saveSnippet m remoteData pushOk "t" s i cc author).2.1
        (setSnippet c i (appendVersion m snip cc author "t").2)
        ((appendVersion m snip cc author "t").2) hstep
        (getSnippet_setSnippet_self c i _)]
      rw [List.foldl_cons]

/-! ## Claim theorems -/

/-- C1: the claim says `restoreVersion(id, k)` appends a fresh version with
the content of version `k`, growing the ledger by one while keeping all old
versions.  The code does not: on a snippet with versions A, B (B current),
`restoreVersion("s", 0)` merely reassigns `currentVersion := 0` — the
ledger still has exactly the two versions A, B, nothing was appended, and
the call returns the untouched old version 0.  (The restore confirm dialog
in the same file promises that a new version is created, so the claim
matches the code's stated intent and the implementation is the slip.) -/
theorem C1_restore_moves_pointer_only :
    (restoreVersion none true twoVersionState "s" 0).1 =
      Except.ok ⟨0, "A", "t", "u"⟩ ∧
    (currentSnippetOf (restoreVersion none true twoVersionState "s" 0).2.1
        "s").map
        (fun S =>
          (S.currentVersion, S.versions.length,
           S.versions.map (fun v => v.html))) =
      some (0, 2, ["A", "B"]) :=
  ⟨rfl, rfl⟩

/-- C2: the claim says `0 ≤ currentVersion < versions.length` always holds
after a save, the pointer naming the last entry.  With
`maxVersionHistory = 2`, after saving A, B, C the code leaves
`currentVersion = 2` while the trimmed ledger is `[B, C]` of length 2, so
`versions[currentVersion]` is out of range (and the renderer's
`versions[snippetData.currentVersion]` lookup yields nothing). -/
theorem C2_pointer_out_of_range_after_trim :
    (currentSnippetOf savedABC "s").map
        (fun S =>
          (S.currentVersion, S.versions.length,
           S.versions.map (fun v => v.html))) =
      some (2, 2, ["B", "C"]) ∧
    (currentSnippetOf savedABC "s").elim False
        (fun S => S.versions[S.currentVersion]? = none) :=
  ⟨rfl, rfl⟩

/-- C3 counterexample: the claim says each newly appended version's number
is strictly greater than that of every previously appended version.  With
`maxVersionHistory = 2`, after saving A, B, C the retained ledger numbers
are `[1, 2]`; the fourth save (content D) is assigned versionNumber 2 as
well — equal to, not greater than, the number of the previously appended
version C. -/
theorem C3_duplicate_version_numbers :
    (saveSnippet 2 none true "t" savedABC "s" "D" "u").1.version = 2 ∧
    (currentSnippetOf savedABC "s").map
        (fun S => S.versions.map (fun v => v.version)) =
      some [1, 2] :=
  ⟨rfl, rfl⟩

/-- C3 amended: the versionNumber of a newly appended version equals the
ledger length at creation time (so 0 for a fresh snippet) and is greater
than OR EQUAL TO the number of every retained previous version — strict
growth fails once trimming has occurred, because after the ledger reaches
`maxVersionHistory` every further save is numbered `maxVersionHistory`
again.  Retained versions themselves are never renumbered: the resulting
ledger is a suffix of the old ledger with the new version appended, and
the numbering invariant is preserved by every save. -/
theorem C3_version_numbering_amended (m : Nat) (hm : 1 ≤ m) (snip : Snippet)
    (hinv : VersionNumInv m snip) (html author timestamp : String) :
    (appendVersion m snip html author timestamp).1.version =
      snip.versions.length ∧
    (∀ v ∈ snip.versions,
      v.version ≤ (appendVersion m snip html author timestamp).1.version) ∧
    (appendVersion m snip html author timestamp).2.versions <:+
      snip.versions ++ [(appendVersion m snip html author timestamp).1] ∧
    VersionNumInv m (appendVersion m snip html author timestamp).2 := by
  obtain ⟨hall, hlen⟩ := hinv
  have h1 : (appendVersion m snip html author timestamp).1.version =
      snip.versions.length := rfl
  refine ⟨h1, ?_, ?_, ?_, ?_⟩
  · intro v hv
    rw [h1]
    exact hall v hv
  · rw [appendVersion_versions]
    by_cases ht : snip.versions.length + 1 > m
    · rw [if_pos ht, jsSliceLast_eq_drop m hm]
      exact List.drop_suffix _ _
    · rw [if_neg ht]
  · intro v hv
    rw [appendVersion_versions] at hv ⊢
    by_cases ht : snip.versions.length + 1 > m
    · rw [if_pos ht, jsSliceLast_eq_drop m hm] at hv ⊢
      have hnm : snip.versions.length = m := Nat.le_antisymm hlen (by omega)
      have hmem := List.mem_of_mem_drop hv
      have hv2 : v.version ≤ snip.versions.length := by
        rcases List.mem_append.mp hmem with h | h
        · exact hall v h
        · have : v = (appendVersion m snip html author timestamp).1 := by
            simpa using h
          rw [this, h1]
      rw [List.length_drop, List.length_append]
      simp only [List.length_singleton]
      omega
    · rw [if_neg ht] at hv ⊢
      have hv2 : v.version ≤ snip.versions.length := by
        rcases List.mem_append.mp hv with h | h
        · exact hall v h
        · have : v = (appendVersion m snip html author timestamp).1 := by
            simpa using h
          rw [this, h1]
      rw [List.length_append]
      simp only [List.length_singleton]
      omega
  · rw [appendVersion_versions]
    by_cases ht : snip.versions.length + 1 > m
    · rw [if_pos ht, jsSliceLast_eq_drop m hm]
      rw [List.length_drop, List.length_append]
      simp only [List.length_singleton]
      omega
    · rw [if_neg ht]
      rw [List.length_append]
      simp only [List.length_singleton]
      omega

/-- C3 amended witness: appending content C to the in-invariant
two-version snippet with cap 2 yields version number 2 (the ledger length
at creation), not below any retained number, keeps a suffix of the pushed
ledger, and preserves the numbering invariant. -/
theorem C3_amended_witness :
    (appendVersion 2 twoVersionSnippet "C" "u" "t").1.version =
      twoVersionSnippet.versions.length ∧
    (∀ v ∈ twoVersionSnippet.versions,
      v.version ≤ (appendVersion 2 twoVersionSnippet "C" "u" "t").1.version) ∧
    (appendVersion 2 twoVersionSnippet "C" "u" "t").2.versions <:+
      twoVersionSnippet.versions ++
        [(appendVersion 2 twoVersionSnippet "C" "u" "t").1] ∧
    VersionNumInv 2 (appendVersion 2 twoVersionSnippet "C" "u" "t").2 :=
  C3_version_numbering_amended 2 (by decide) twoVersionSnippet
    (by constructor <;> decide) "C" "u" "t"

/-- C5 counterexample: the claim says a mutation on region A never cancels
or redirects the pending save of region B.  The code shares one debounce
timer across all regions: region B mutates at time 0 (a save for B is
pending with deadline 2000), region A mutates at time 1 — inside B's quiet
window — and the only save that ever fires is A's; no save with region B's
id is ever issued. -/
theorem C5_shared_debounce_cancels_other_region :
    (debounceRun 2000 [("B", "contentB", 0), ("A", "contentA", 1)]).fired =
      [("A", "contentA")] ∧
    ((debounceRun 2000 [("B", "contentB", 0), ("A", "contentA", 1)]).fired.all
        (fun p => p.1 != "B")) = true :=
  ⟨rfl, rfl⟩

/-- C7: in any state with no remote write already in flight,
`deleteSnippet(id)` removes the key from the collection, commits the
updated collection to the cache and the durable local store, performs a
remote push of that same updated collection after the local commit, and
awaits it: the push outcome is the call's result, so the delete path is
synchronous with respect to the remote store. -/
theorem C7_delete_commits_then_awaits_push
    (remoteData : Option SnippetCollection) (pushOk : Bool)
    (s : StorageState) (i : String) (hs : s.syncInProgress = false) :
    let fetched := getAllSnippets remoteData s
    let updated := removeSnippet fetched.1 i
    deleteSnippet remoteData pushOk s i =
      ((if pushOk then Except.ok () else Except.error "API save failed"),
       { fetched.2.1 with cache := some updated, localStore := some updated },
       fetched.2.2 ++ [Effect.localSave updated, Effect.remotePush updated]) := by
  have hsync := getAllSnippets_syncInProgress remoteData s
  rw [hs] at hsync
  simp [deleteSnippet, saveToAPI_eq, hsync]

/-- C7 witness: deleting snippet `s` from the two-version state with a
healthy remote performs the local commit and then the awaited push of the
emptied collection, returning the push's success. -/
theorem C7_witness :
    deleteSnippet none true twoVersionState "s" =
      (Except.ok (),
       { cache := some [], localStore := some [], syncInProgress := false },
       [Effect.localSave [], Effect.remotePush []]) := by
  have h := C7_delete_commits_then_awaits_push none true twoVersionState "s" rfl
  simpa using h

/-- C8: once the cache is populated, `getAllSnippets` returns the cached
collection itself, leaves the state untouched, and performs no I/O at
all — and so does a second call right after it, whatever the remote would
answer: reference-identical results, no additional remote or local I/O. -/
theorem C8_getAll_idempotent (remoteData remoteData2 : Option SnippetCollection)
    (s : StorageState) (c : SnippetCollection) (h : s.cache = some c) :
    getAllSnippets remoteData s = (c, s, []) ∧
    getAllSnippets remoteData2 (getAllSnippets remoteData s).2.1 =
      (c, s, []) := by
  constructor
  · simp [getAllSnippets, h]
  · simp [getAllSnippets, h]

/-- C8 witness: two back-to-back reads of the populated two-version state
both return the cached collection with an empty effect trace. -/
theorem C8_witness :
    getAllSnippets none twoVersionState =
      ([("s", twoVersionSnippet)], twoVersionState, []) ∧
    getAllSnippets none (getAllSnippets none twoVersionState).2.1 =
      ([("s", twoVersionSnippet)], twoVersionState, []) :=
  C8_getAll_idempotent none none twoVersionState [("s", twoVersionSnippet)] rfl

/-- C9: `saveSnippet` is entirely insensitive to the remote push outcome:
the run with a failing push is EQUAL (result, state and effect trace) to
the run with a successful one, the returned value is the newly created
version, and the final cache and durable local store both hold the
collection updated with the appended snippet.  The result type has no
error component because the code attaches `.catch` to the push and never
throws on the local path. -/
theorem C9_save_commits_locally_regardless_of_remote
    (maxHistory : Nat) (remoteData : Option SnippetCollection)
    (pushOk : Bool) (timestamp : String) (s : StorageState)
    (i html author : String) :
    let fetched := getAllSnippets remoteData s
    let appended := appendVersion maxHistory
      ((getSnippet fetched.1 i).getD (freshSnippet i)) html author timestamp
    let updated := setSnippet fetched.1 i appended.2
    saveSnippet maxHistory remoteData pushOk timestamp s i html author =
      saveSnippet maxHistory remoteData true timestamp s i html author ∧
    (saveSnippet maxHistory remoteData pushOk timestamp s i html author).1 =
      appended.1 ∧
    (saveSnippet maxHistory remoteData pushOk timestamp s i html
        author).2.1.cache = some updated ∧
    (saveSnippet maxHistory remoteData pushOk timestamp s i html
        author).2.1.localStore = some updated ∧
    currentSnippetOf
        (saveSnippet maxHistory remoteData pushOk timestamp s i html
          author).2.1 i = some appended.2 := by
  refine ⟨?_, ?_, ?_, ?_, ?_⟩ <;>
    simp [saveSnippet, saveToAPI_eq, currentSnippetOf,
      getSnippet_setSnippet_self]

/-- C10: deleting an id that is absent from the collection is a silent
no-op on the local path: no `NotFoundError` (the result is the remote
push's success), and the committed collection is unchanged. -/
theorem C10_delete_absent_is_noop (remoteData : Option SnippetCollection)
    (s : StorageState) (c : SnippetCollection) (i : String)
    (hc : s.cache = some c) (habs : getSnippet c i = none)
    (hs : s.syncInProgress = false) :
    (deleteSnippet remoteData true s i).1 = Except.ok () ∧
    (deleteSnippet remoteData true s i).2.1.cache = some c ∧
    (deleteSnippet remoteData true s i).2.1.localStore = some c := by
  have hrm := removeSnippet_of_absent c i habs
  refine ⟨?_, ?_, ?_⟩ <;>
    simp [deleteSnippet, getAllSnippets, hc, hrm, saveToAPI_eq, hs]

/-- C10 witness: deleting the absent id `ghost` from the two-version state
succeeds and leaves the committed collection exactly as it was. -/
theorem C10_witness :
    (deleteSnippet none true twoVersionState "ghost").1 = Except.ok () ∧
    (deleteSnippet none true twoVersionState "ghost").2.1.cache =
      some [("s", twoVersionSnippet)] ∧
    (deleteSnippet none true twoVersionState "ghost").2.1.localStore =
      some [("s", twoVersionSnippet)] :=
  C10_delete_absent_is_noop none twoVersionState [("s", twoVersionSnippet)]
    "ghost" rfl rfl rfl

/-- C4: starting from a collection where the id is absent, after `N`
consecutive `saveSnippet` calls with contents `c1 … cN` where
`N > maxVersionHistory ≥ 1`, the cached snippet's ledger has length
exactly `maxVersionHistory`, its entries are, in order, the versions of
the last `maxVersionHistory` contents, and its last entry's content is
`cN`. -/
theorem C4_retention_cap (m : Nat) (remoteData : Option SnippetCollection)
    (pushOk : Bool) (s : StorageState) (c : SnippetCollection)
    (i author : String) (contents : List String)
    (hm : 1 ≤ m) (hn : m < contents.length)
    (hc : s.cache = some c) (habs : getSnippet c i = none) :
    (currentSnippetOf (saveSeq m remoteData pushOk i author s contents)
        i).map (fun S => (S.versions.length,
          S.versions.map (fun v => v.html))) =
      some (m, contents.drop (contents.length - m)) ∧
    (currentSnippetOf (saveSeq m remoteData pushOk i author s contents)
        i).bind (fun S => (S.versions.map (fun v => v.html)).getLast?) =
      contents.getLast? := by
  cases contents with
  | nil => simp at hn
  | cons c0 rest =>
      have hstep :
          (saveSnippet m remoteData pushOk "t" s i c0 author).2.1.cache =
            some (setSnippet c i
              (appendVersion m (freshSnippet i) c0 author "t").2) := by
        simp [saveSnippet, getAllSnippets, hc, habs, saveToAPI_eq]
      have hcur : currentSnippetOf
          (saveSeq m remoteData pushOk i author s (c0 :: rest)) i =
          some (snippetAfterSaves m i author (c0 :: rest)) := by
        rw [saveSeq]
        rw [saveSeq_cache_lookup m remoteData pushOk i author rest
          (saveSnippet m remoteData pushOk "t" s i c0 author).2.1
          (setSnippet c i (appendVersion m (freshSnippet i) c0 author "t").2)
          ((appendVersion m (freshSnippet i) c0 author "t").2) hstep
          (getSnippet_setSnippet_self c i _)]
        rw [snippetAfterSaves, List.foldl_cons]
      obtain ⟨hmap, hlen⟩ := snippetAfterSaves_spec m hm i author (c0 :: rest)
      have hlen2 : (snippetAfterSaves m i author (c0 :: rest)).versions.length
          = m := by
        rw [hlen, Nat.min_eq_right (Nat.le_of_lt hn)]
      constructor
      · rw [hcur]
        exact congrArg some (by
          show ((snippetAfterSaves m i author (c0 :: rest)).versions.length,
              (snippetAfterSaves m i author (c0 :: rest)).versions.map
                (fun v => v.html)) =
            (m, (c0 :: rest).drop ((c0 :: rest).length - m))
          rw [hlen2, hmap])
      · rw [hcur]
        show ((snippetAfterSaves m i author (c0 :: rest)).versions.map
            (fun v => v.html)).getLast? = (c0 :: rest).getLast?
        rw [hmap]
        exact getLast?_drop_of_lt (c0 :: rest) ((c0 :: rest).length - m)
          (by omega)

/-- C4 witness: with cap 2, saving A, B, C for a fresh id leaves a ledger
of length 2 holding exactly the contents B, C, the last being C. -/
theorem C4_witness :
    (currentSnippetOf savedABC "s").map
        (fun S => (S.versions.length, S.versions.map (fun v => v.html))) =
      some (2, ["A", "B", "C"].drop (["A", "B", "C"].length - 2)) ∧
    (currentSnippetOf savedABC "s").bind
        (fun S => (S.versions.map (fun v => v.html)).getLast?) =
      ["A", "B", "C"].getLast? :=
  C4_retention_cap 2 none true initState [] "s" "u" ["A", "B", "C"]
    (by decide) (by decide) rfl rfl

/-- C5 amended: all watched regions share ONE debounce timer.  Throughout
a burst — every mutation arriving strictly before the deadline armed by
the previous one — no save fires and the pending save is repeatedly
replaced, whatever region it belonged to; when the burst ends, exactly one
save fires, carrying the region id and content of the most recent
mutation. -/
theorem C5_shared_debounce_last_mutation_wins (wait : Nat)
    (e : String × String × Nat) (rest : List (String × String × Nat))
    (h : chainLt wait e.2.2 rest) :
    debounceRun wait (e :: rest) =
      { pending := none,
        fired := [((lastD e rest).1, (lastD e rest).2.1)] } := by
  have aux : ∀ (evs : List (String × String × Nat)) (r c : String) (t : Nat)
      (F : List (String × String)), chainLt wait t evs →
      List.foldl (debounceStep wait)
          { pending := some (r, c, t + wait), fired := F } evs =
        { pending := some ((lastD (r, c, t) evs).1,
            (lastD (r, c, t) evs).2.1, (lastD (r, c, t) evs).2.2 + wait),
          fired := F } := by
    intro evs
    induction evs with
    | nil => intro r c t F _; simp [lastD]
    | cons e2 rest2 ih =>
        intro r c t F hch
        obtain ⟨h1, h2⟩ := hch
        have hnofire : ¬ (t + wait ≤ e2.2.2) := by omega
        have hstep : debounceStep wait
            { pending := some (r, c, t + wait), fired := F } e2 =
            { pending := some (e2.1, e2.2.1, e2.2.2 + wait), fired := F } := by
          simp [debounceStep, hnofire]
        rw [List.foldl_cons, hstep, ih e2.1 e2.2.1 e2.2.2 F h2, lastD_cons]
  unfold debounceRun
  rw [List.foldl_cons]
  have hstep0 : debounceStep wait { pending := none, fired := [] } e =
      { pending := some (e.1, e.2.1, e.2.2 + wait), fired := [] } := by
    simp [debounceStep]
  rw [hstep0, aux rest e.1 e.2.1 e.2.2 [] h]
  simp

/-- C5 amended witness: two mutations 1 ms apart on distinct regions B
then A collapse into the single save for A, the most recent mutation. -/
theorem C5_amended_witness :
    debounceRun 2000 [("regionB", "b1", 0), ("regionA", "a1", 1)] =
      { pending := none, fired := [("regionA", "a1")] } := by
  have h := C5_shared_debounce_last_mutation_wins 2000 ("regionB", "b1", 0)
    [("regionA", "a1", 1)] (by exact ⟨by decide, trivial⟩)
  simpa [lastD] using h

/-- C6 counterexample: the claim says any surfaced failure of
`deleteSnippet` / `restoreVersion` / `importMerge` leaves the cached state
of the affected snippet unchanged.  But the code commits the cache and the
local store BEFORE awaiting the remote push: deleting snippet `s` while
the remote push fails makes the call surface the push error, yet the
snippet is already gone from the cache. -/
theorem C6_delete_mutates_cache_despite_error :
    (deleteSnippet none false twoVersionState "s").1 =
      Except.error "API save failed" ∧
    currentSnippetOf (deleteSnippet none false twoVersionState "s").2.1 "s" =
      none ∧
    currentSnippetOf twoVersionState "s" = some twoVersionSnippet :=
  ⟨rfl, rfl, rfl⟩

/-- C6 amended: with a populated cache and no push in flight, the real
failure semantics are: (1) a `NotFoundError` from `restoreVersion` is
raised before any mutation, so the state is returned untouched with no
I/O; (2)-(4) when `deleteSnippet`, `restoreVersion` (valid index) or the
merge of imported data fail because the awaited remote push fails, the error is
surfaced to the caller but the cache already holds the FULLY updated
collection — the local mutation is committed, complete (never
half-applied), and not rolled back. -/
theorem C6_failure_semantics_amended
    (remoteData : Option SnippetCollection) (pushOk : Bool)
    (s : StorageState) (c : SnippetCollection) (i : String) (k : Nat)
    (hc : s.cache = some c) (hs : s.syncInProgress = false) :
    (((getSnippet c i).bind (fun sn => sn.versions[k]?)) = none →
      restoreVersion remoteData pushOk s i k =
        (Except.error "Version not found", s, [])) ∧
    ((deleteSnippet remoteData false s i).1 =
        Except.error "API save failed" ∧
      (deleteSnippet remoteData false s i).2.1.cache =
        some (removeSnippet c i)) ∧
    (∀ sn v, getSnippet c i = some sn → sn.versions[k]? = some v →
      (restoreVersion remoteData false s i k).1 =
          Except.error "API save failed" ∧
        (restoreVersion remoteData false s i k).2.1.cache =
          some (setSnippet c i { sn with currentVersion := k })) ∧
    (∀ incoming : SnippetCollection,
      (importMerge remoteData false s incoming).1 =
          Except.error "API save failed" ∧
        (importMerge remoteData false s incoming).2.1.cache =
          some (incoming.foldl (fun acc p => setSnippet acc p.1 p.2) c)) := by
  refine ⟨?_, ?_, ?_, ?_⟩
  · intro h
    cases hg : getSnippet c i with
    | none => simp [restoreVersion, getAllSnippets, hc, hg]
    | some sn =>
        have hv : sn.versions[k]? = none := by simpa [hg] using h
        simp [restoreVersion, getAllSnippets, hc, hg, hv]
  · constructor <;>
      simp [deleteSnippet, getAllSnippets, hc, saveToAPI_eq, hs]
  · intro sn v hg hv
    constructor <;>
      simp [restoreVersion, getAllSnippets, hc, hg, hv, saveToAPI_eq, hs]
  · intro incoming
    constructor <;>
      simp [importMerge, getAllSnippets, hc, saveToAPI_eq, hs]

/-- C6 amended witness: restoring a nonexistent version index 5 on the
two-version state fails with `NotFoundError` and returns the state
untouched with no I/O performed. -/
theorem C6_amended_witness :
    restoreVersion none true twoVersionState "s" 5 =
      (Except.error "Version not found", twoVersionState, []) :=
  (C6_failure_semantics_amended none true twoVersionState
    [("s", twoVersionSnippet)] "s" 5 rfl rfl).1 rfl

end GlobalSnippets
